import Mathlib

/-!
# Verification of the convert-rust encoding detection/conversion pipeline

Shallow embedding of the repository's Rust modules:
* `src/detection.rs`  — BOM detection and content-based encoding detection
* `src/conversion.rs` — transcoding with line-ending normalization
* `src/main.rs`       — the batch conversion driver (`convert_files`)
* `src/statistics.rs` — the per-encoding frequency aggregator

Bytes are modelled as `Nat` (values < 256 at use sites), decoded text as a
list of Unicode scalar values (`Nat`).  Fallible operations return
`Option`/`Except`.  The external codec library (encoding_rs) is embedded by
its documented semantics: `decode` performs BOM sniffing and reports whether
any malformed sequence was replaced (modelled as `Option`, `none` exactly
when `had_errors` would be true, since the converter discards the replaced
text whenever `had_errors` holds); `encode` reports unmappable characters
the same way, and for UTF-16LE/BE its output encoding is UTF-8
(encoding_rs has no UTF-16 encoder; `Encoding::output_encoding` maps
UTF-16LE/BE to UTF-8).
-/

namespace ConvertRust

/-! ## detection.rs -/

/-- Embeds `struct BomInfo` from `src/detection.rs`. -/
structure BomInfo where
  bomType : String
  skipBytes : Nat
deriving DecidableEq, Repr

/-- Embeds `struct FileEncoding` from `src/detection.rs`. -/
structure FileEncoding where
  encoding : String
  bom : Option String
deriving DecidableEq, Repr

/-- Embeds `detect_bom` from `src/detection.rs`: a match on the leading
bytes, in source order, guarded by `content.len() < 2`. -/
def detect_bom (content : List Nat) : Option BomInfo :=
  if content.length < 2 then none
  else
    match content with
    | 0xEF :: 0xBB :: 0xBF :: _ => some ⟨"UTF-8", 3⟩
    | 0xFE :: 0xFF :: _ => some ⟨"UTF-16BE", 2⟩
    | 0xFF :: 0xFE :: 0x00 :: 0x00 :: _ => some ⟨"UTF-32LE", 4⟩
    | 0x00 :: 0x00 :: 0xFE :: 0xFF :: _ => some ⟨"UTF-32BE", 4⟩
    | 0xFF :: 0xFE :: _ => some ⟨"UTF-16LE", 2⟩
    | _ => none

/-- Embeds `is_ascii` from `src/detection.rs`. -/
def is_ascii (content : List Nat) : Bool :=
  content.all (fun b => b < 128)

/-- UTF-8 decoder: returns the scalar values when the bytes are well-formed
UTF-8 (the WHATWG/Rust UTF-8 grammar: C2..DF, E0..EF with E0/ED second-byte
restrictions, F0..F4 with F0/F4 second-byte restrictions), `none` otherwise.
This embeds both `String::from_utf8(..).is_ok()` (used by `is_utf8` in
`src/detection.rs`) and the `had_errors` outcome of encoding_rs's UTF-8
decoder (used by `convert` in `src/conversion.rs`); the replacement text
produced on malformed input is never observed by the repository's code,
which fails hard whenever `had_errors` is set. -/
def utf8decode : List Nat → Option (List Nat)
  | [] => some []
  | b :: rest =>
    if b < 0x80 then
      (utf8decode rest).map (fun t => b :: t)
    else if 0xC2 ≤ b ∧ b ≤ 0xDF then
      match rest with
      | b2 :: r =>
        if 0x80 ≤ b2 ∧ b2 ≤ 0xBF then
          (utf8decode r).map (fun t => ((b - 0xC0) * 64 + (b2 - 0x80)) :: t)
        else none
      | [] => none
    else if 0xE0 ≤ b ∧ b ≤ 0xEF then
      match rest with
      | b2 :: r2 =>
        match r2 with
        | b3 :: r =>
          if (if b = 0xE0 then 0xA0 ≤ b2 ∧ b2 ≤ 0xBF
              else if b = 0xED then 0x80 ≤ b2 ∧ b2 ≤ 0x9F
              else 0x80 ≤ b2 ∧ b2 ≤ 0xBF) ∧ (0x80 ≤ b3 ∧ b3 ≤ 0xBF) then
            (utf8decode r).map
              (fun t => ((b - 0xE0) * 4096 + (b2 - 0x80) * 64 + (b3 - 0x80)) :: t)
          else none
        | [] => none
      | [] => none
    else if 0xF0 ≤ b ∧ b ≤ 0xF4 then
      match rest with
      | b2 :: r2 =>
        match r2 with
        | b3 :: r3 =>
          match r3 with
          | b4 :: r =>
            if (if b = 0xF0 then 0x90 ≤ b2 ∧ b2 ≤ 0xBF
                else if b = 0xF4 then 0x80 ≤ b2 ∧ b2 ≤ 0x8F
                else 0x80 ≤ b2 ∧ b2 ≤ 0xBF) ∧ (0x80 ≤ b3 ∧ b3 ≤ 0xBF)
                ∧ (0x80 ≤ b4 ∧ b4 ≤ 0xBF) then
              (utf8decode r).map
                (fun t => ((b - 0xF0) * 262144 + (b2 - 0x80) * 4096
                            + (b3 - 0x80) * 64 + (b4 - 0x80)) :: t)
            else none
          | [] => none
        | [] => none
      | [] => none
    else none

/-- Embeds `is_utf8` from `src/detection.rs`
(`String::from_utf8(content.to_vec()).is_ok()`). -/
def is_utf8 (content : List Nat) : Bool :=
  (utf8decode content).isSome

/-- Embeds `looks_like_windows1252_or_iso8859_1` from `src/detection.rs`. -/
def looks_like_windows1252_or_iso8859_1 (content : List Nat) : Bool :=
  content.any (fun b => 0x80 ≤ b && b ≤ 0x9F) ||
  content.any (fun b => 0xA0 ≤ b && b ≤ 0xFF)

/-- Embeds `detect_encoding` from `src/detection.rs`.  The input is
`none` when `fs::read` fails, `some content` otherwise.  The heuristic
classifier is the external `chardet` crate, passed as the function
parameter `chardet` (composed with `charset2encoding`).  Inside the
no-BOM branch the source recomputes `detect_bom` to slice off a BOM, but
in that branch `detect_bom` already returned `None`, so the slice is the
whole content. -/
def detect_encoding (chardet : List Nat → String) (input : Option (List Nat)) :
    FileEncoding :=
  match input with
  | none => ⟨"binary/unreadable", none⟩
  | some content =>
    if content = [] then ⟨"empty file", none⟩
    else
      match detect_bom content with
      | some bomInfo => ⟨bomInfo.bomType, some bomInfo.bomType⟩
      | none =>
        let content_without_bom := content
        if is_ascii content_without_bom then ⟨"ASCII", none⟩
        else if is_utf8 content_without_bom then ⟨"UTF-8", none⟩
        else
          let chardet_encoding := chardet content_without_bom
          if (chardet_encoding = "ISO-8859-1" ∨ chardet_encoding = "windows-1252")
              ∧ looks_like_windows1252_or_iso8859_1 content_without_bom then
            if content_without_bom.any (fun b => 0x80 ≤ b && b ≤ 0x9F) then
              ⟨"windows-1252", none⟩
            else ⟨"ISO-8859-1", none⟩
          else ⟨chardet_encoding, none⟩

/-! ## conversion.rs -/

/-- Embeds `enum LineEnding` from `src/conversion.rs`. -/
inductive LineEnding where
  | unix
  | windows
  | keep
deriving DecidableEq, Repr

/-- Embeds `enum ConversionError` from `src/conversion.rs` (the
`io::Error` payload carried by `IoError` is not observed by any claim and
is dropped). -/
inductive ConversionError where
  | ioError
  | encodingError (msg : String)
  | unsupportedEncoding (name : String)
deriving DecidableEq, Repr

/-- Concrete encoding implementations resolved by `get_encoding`
(`&'static Encoding` values of encoding_rs reachable from it). -/
inductive Codec where
  | utf8
  | utf16le
  | utf16be
  | windows1252
deriving DecidableEq, Repr

/-- Embeds `str::to_uppercase` as used by `get_encoding` and `get_bom`
(Rust's Unicode uppercasing agrees with per-char ASCII uppercasing on the
encoding names involved). -/
def to_uppercase (s : String) : String :=
  ⟨s.data.map Char.toUpper⟩

/-- Embeds `EncodingConverter::get_encoding` from `src/conversion.rs`:
matches the uppercased name against the fixed supported set. -/
def get_encoding (name : String) : Except ConversionError Codec :=
  match to_uppercase name with
  | "UTF-8" => .ok .utf8
  | "UTF-8-BOM" => .ok .utf8
  | "UTF-16LE" => .ok .utf16le
  | "UTF-16BE" => .ok .utf16be
  | "WINDOWS-1252" => .ok .windows1252
  | "ISO-8859-1" => .ok .windows1252
  | "ASCII" => .ok .utf8
  | _ => .error (.unsupportedEncoding name)

/-- Embeds `EncodingConverter::get_bom` from `src/conversion.rs`. -/
def get_bom (encoding : String) : List Nat :=
  match to_uppercase encoding with
  | "UTF-8-BOM" => [0xEF, 0xBB, 0xBF]
  | "UTF-16LE" => [0xFF, 0xFE]
  | "UTF-16BE" => [0xFE, 0xFF]
  | _ => []

/-- UTF-8 encoding of one Unicode scalar value (the standard 1-4 byte
form; encoding_rs's UTF-8 encoder never fails on a valid `&str`). -/
def utf8encodeChar (c : Nat) : List Nat :=
  if c < 0x80 then [c]
  else if c < 0x800 then [0xC0 + c / 64, 0x80 + c % 64]
  else if c < 0x10000 then [0xE0 + c / 4096, 0x80 + c / 64 % 64, 0x80 + c % 64]
  else [0xF0 + c / 262144, 0x80 + c / 4096 % 64, 0x80 + c / 64 % 64, 0x80 + c % 64]

/-- UTF-8 encoding of a decoded text (list of scalar values). -/
def utf8encode (text : List Nat) : List Nat :=
  text.flatMap utf8encodeChar

/-- UTF-16LE decoder (encoding_rs semantics, `Option`-modelled as for
`utf8decode`): bytes are read as little-endian 16-bit units; surrogate
pairs combine; lone surrogates and an odd trailing byte are malformed. -/
def utf16leDecode : List Nat → Option (List Nat)
  | [] => some []
  | [_] => none
  | b1 :: b2 :: rest =>
    let u := b1 + 256 * b2
    if u < 0xD800 ∨ 0xE000 ≤ u then
      (utf16leDecode rest).map (fun t => u :: t)
    else if u ≤ 0xDBFF then
      match rest with
      | b3 :: b4 :: r =>
        let u2 := b3 + 256 * b4
        if 0xDC00 ≤ u2 ∧ u2 ≤ 0xDFFF then
          (utf16leDecode r).map
            (fun t => (0x10000 + (u - 0xD800) * 1024 + (u2 - 0xDC00)) :: t)
        else none
      | _ => none
    else none

/-- UTF-16BE decoder, as `utf16leDecode` with big-endian units. -/
def utf16beDecode : List Nat → Option (List Nat)
  | [] => some []
  | [_] => none
  | b1 :: b2 :: rest =>
    let u := b1 * 256 + b2
    if u < 0xD800 ∨ 0xE000 ≤ u then
      (utf16beDecode rest).map (fun t => u :: t)
    else if u ≤ 0xDBFF then
      match rest with
      | b3 :: b4 :: r =>
        let u2 := b3 * 256 + b4
        if 0xDC00 ≤ u2 ∧ u2 ≤ 0xDFFF then
          (utf16beDecode r).map
            (fun t => (0x10000 + (u - 0xD800) * 1024 + (u2 - 0xDC00)) :: t)
        else none
      | _ => none
    else none

/-- Decoding of one byte under windows-1252 (the WHATWG index: the 0x80-0x9F
band maps to the listed code points, every other byte to itself; all 256
bytes are defined, so windows-1252 decoding never errors). -/
def windows1252DecodeByte (b : Nat) : Nat :=
  match b with
  | 0x80 => 0x20AC
  | 0x82 => 0x201A
  | 0x83 => 0x0192
  | 0x84 => 0x201E
  | 0x85 => 0x2026
  | 0x86 => 0x2020
  | 0x87 => 0x2021
  | 0x88 => 0x02C6
  | 0x89 => 0x2030
  | 0x8A => 0x0160
  | 0x8B => 0x2039
  | 0x8C => 0x0152
  | 0x8E => 0x017D
  | 0x91 => 0x2018
  | 0x92 => 0x2019
  | 0x93 => 0x201C
  | 0x94 => 0x201D
  | 0x95 => 0x2022
  | 0x96 => 0x2013
  | 0x97 => 0x2014
  | 0x98 => 0x02DC
  | 0x99 => 0x2122
  | 0x9A => 0x0161
  | 0x9B => 0x203A
  | 0x9C => 0x0153
  | 0x9E => 0x017E
  | 0x9F => 0x0178
  | _ => b

/-- Encoding of one scalar value to windows-1252: the byte that decodes to
it, `none` when the character is outside the repertoire (encoding_rs
reports such characters as unmappable, which `convert` treats as fatal). -/
def windows1252EncodeChar (c : Nat) : Option Nat :=
  (List.range 256).find? (fun b => decide (windows1252DecodeByte b = c))

/-- Windows-1252 encoding of a text; `none` as soon as one character is
unmappable. -/
def windows1252Encode : List Nat → Option (List Nat)
  | [] => some []
  | c :: t =>
    match windows1252EncodeChar c with
    | some b => (windows1252Encode t).map (fun bs => b :: bs)
    | none => none

/-- Decoder selection for a resolved codec. -/
def codecDecode : Codec → List Nat → Option (List Nat)
  | .utf8, bs => utf8decode bs
  | .utf16le, bs => utf16leDecode bs
  | .utf16be, bs => utf16beDecode bs
  | .windows1252, bs => some (bs.map windows1252DecodeByte)

/-- Encoder selection for a resolved codec.  Per encoding_rs,
`Encoding::encode` uses `output_encoding()`, which maps UTF-16LE/BE to
UTF-8: the UTF-16 variants therefore produce UTF-8 bytes. -/
def codecEncode : Codec → List Nat → Option (List Nat)
  | .utf8, t => some (utf8encode t)
  | .utf16le, t => some (utf8encode t)
  | .utf16be, t => some (utf8encode t)
  | .windows1252, t => windows1252Encode t

/-- Embeds the BOM sniffing performed by encoding_rs's
`Encoding::decode`: a leading UTF-8, UTF-16BE or UTF-16LE BOM overrides
the declared encoding and is removed; otherwise the declared codec
decodes the whole input.  The three BOMs have mutually exclusive first
bytes, so the check order is immaterial. -/
def decode_with_bom_sniff (codec : Codec) (input : List Nat) : Option (List Nat) :=
  if input.take 3 = [0xEF, 0xBB, 0xBF] then utf8decode (input.drop 3)
  else if input.take 2 = [0xFE, 0xFF] then utf16beDecode (input.drop 2)
  else if input.take 2 = [0xFF, 0xFE] then utf16leDecode (input.drop 2)
  else codecDecode codec input

/-- Embeds `convert_to_unix_endings`'s first pass,
`text.replace("\r\n", "\n")`: leftmost non-overlapping replacement of the
pair CR LF (13, 10) by LF. -/
def replace_crlf_with_lf : List Nat → List Nat
  | [] => []
  | [c] => [c]
  | a :: b :: rest =>
    if a = 13 ∧ b = 10 then 10 :: replace_crlf_with_lf rest
    else a :: replace_crlf_with_lf (b :: rest)

/-- Embeds `convert_to_unix_endings`'s second pass,
`text.replace('\r', "\n")`. -/
def replace_cr_with_lf (text : List Nat) : List Nat :=
  text.map (fun c => if c = 13 then 10 else c)

/-- Embeds `EncodingConverter::convert_to_unix_endings` from
`src/conversion.rs`. -/
def convert_to_unix_endings (text : List Nat) : List Nat :=
  replace_cr_with_lf (replace_crlf_with_lf text)

/-- Embeds the `unix_text.replace('\n', "\r\n")` pass of
`convert_to_windows_endings`. -/
def replace_lf_with_crlf (text : List Nat) : List Nat :=
  text.flatMap (fun c => if c = 10 then [13, 10] else [c])

/-- Embeds `EncodingConverter::convert_to_windows_endings` from
`src/conversion.rs`. -/
def convert_to_windows_endings (text : List Nat) : List Nat :=
  replace_lf_with_crlf (convert_to_unix_endings text)

/-- Line-ending policy application, as the `match line_ending` inside
`convert`. -/
def apply_line_ending (line_ending : LineEnding) (text : List Nat) : List Nat :=
  match line_ending with
  | .keep => text
  | .unix => convert_to_unix_endings text
  | .windows => convert_to_windows_endings text

/-- Embeds `EncodingConverter::convert` from `src/conversion.rs`:
resolve both codecs (source first), decode with BOM sniffing (failing
when `had_errors`), apply the line-ending policy, encode (failing when
unmappable), then prepend the BOM exactly when `to` equals one of the
three literals `"UTF-8-BOM"`, `"UTF-16LE"`, `"UTF-16BE"` — this equality
is case-sensitive in the source, unlike the uppercasing `get_encoding`
and `get_bom`. -/
def convert (input : List Nat) (src : FileEncoding) (toEnc : String)
    (line_ending : LineEnding) : Except ConversionError (List Nat) := do
  let sourceCodec ← get_encoding src.encoding
  let targetCodec ← get_encoding toEnc
  let text ← match decode_with_bom_sniff sourceCodec input with
    | some t => Except.ok t
    | none => Except.error (.encodingError ("Failed to decode from " ++ src.encoding))
  let content := apply_line_ending line_ending text
  let output ← match codecEncode targetCodec content with
    | some o => Except.ok o
    | none => Except.error (.encodingError ("Failed to encode to " ++ toEnc))
  Except.ok
    ((if toEnc = "UTF-8-BOM" ∨ toEnc = "UTF-16LE" ∨ toEnc = "UTF-16BE" then
        get_bom toEnc
      else []) ++ output)

/-! ## main.rs — the batch driver -/

/-- One file as fed to `convert_files` in `src/main.rs`: its path
(modelled as a list of components), its base name (from
`path.file_name()`), its raw bytes (read by `convert_file`), and its
detected encoding. -/
structure ScannedFile where
  path : List String
  name : String
  bytes : List Nat
  enc : FileEncoding
deriving DecidableEq

/-- One file's destination and conversion result inside the batch loop. -/
structure FileOutcome where
  dest : List String
  result : Except ConversionError (List Nat)

/-- Embeds `output_dir.join(name)` from `convert_files` in
`src/main.rs`: the destination is the output root joined with the base
name only. -/
def output_path_for (output_dir : List String) (name : String) : List String :=
  output_dir ++ [name]

/-- Base name of a path, as `Path::file_name` on a normal-component path. -/
def base_name (p : List String) : Option String :=
  p.getLast?

/-- Embeds the loop of `convert_files` from `src/main.rs` (backups
disabled, verification skipped — neither affects which conversions are
attempted or where their output goes): every file is processed in order;
a failed conversion is logged and the loop continues with the next
file. -/
def convert_files (files : List ScannedFile) (target : String)
    (line_ending : LineEnding) (output_dir : List String) : List FileOutcome :=
  files.map
    (fun f => ⟨output_path_for output_dir f.name, convert f.bytes f.enc target line_ending⟩)

/-- The ordered list of file writes a batch performs: one write per
successful conversion, at its destination path. -/
def batch_writes (outcomes : List FileOutcome) : List (List String × List Nat) :=
  outcomes.filterMap (fun o => o.result.toOption.map (fun bs => (o.dest, bs)))

/-- Contents of a path after a sequence of writes: the last write to that
path wins (`File::create` truncates and overwrites). -/
def written_contents (writes : List (List String × List Nat)) (p : List String) :
    Option (List Nat) :=
  (writes.reverse.find? (fun w => decide (w.1 = p))).map (fun w => w.2)

/-! ## statistics.rs -/

/-- Embeds `struct FileReport` from `src/output.rs`. -/
structure FileReport where
  path : List String
  name : String
  encoding : FileEncoding
deriving DecidableEq

/-- Embeds `struct EncodingStat` from `src/output.rs`; the `f64`
percentage is modelled exactly in `ℚ`. -/
structure EncodingStat where
  encoding : String
  bom : Option String
  count : Nat
  percentage : ℚ
deriving DecidableEq

/-- Embeds `struct ScanReport` from `src/output.rs`. -/
structure ScanReport where
  total_files : Nat
  files : List FileReport
  encoding_stats : List EncodingStat

/-- Embeds `struct Statistics` from `src/statistics.rs`.  The
`HashMap<FileEncoding, usize>` is modelled as an association list with
distinct keys; the hash map's arbitrary iteration order corresponds to
the list order, which none of the proved properties depend on. -/
structure Statistics where
  total_files : Nat
  encoding_counts : List (FileEncoding × Nat)
  files : List FileReport

/-- Embeds `Statistics::new`. -/
def Statistics.new : Statistics :=
  ⟨0, [], []⟩

/-- Embeds `*self.encoding_counts.entry(encoding).or_insert(0) += 1`. -/
def bumpCount : List (FileEncoding × Nat) → FileEncoding → List (FileEncoding × Nat)
  | [], k => [(k, 1)]
  | (k', c) :: rest, k =>
    if k' = k then (k', c + 1) :: rest else (k', c) :: bumpCount rest k

/-- Embeds `Statistics::add_file` from `src/statistics.rs`. -/
def Statistics.add_file (st : Statistics) (path : List String) (name : String)
    (encoding : FileEncoding) : Statistics :=
  ⟨st.total_files + 1, bumpCount st.encoding_counts encoding,
   st.files ++ [⟨path, name, encoding⟩]⟩

/-- Embeds `Statistics::generate_report` from `src/statistics.rs`:
entries are sorted by `|a, b| b.1.cmp(a.1)` (descending count, stable),
then mapped to stats with `percentage = count / total_files * 100`. -/
def Statistics.generate_report (st : Statistics) : ScanReport :=
  let entries := st.encoding_counts.mergeSort (fun a b => decide (b.2 ≤ a.2))
  ⟨st.total_files, st.files,
   entries.map (fun e =>
     ⟨e.1.encoding, e.1.bom, e.2, (e.2 : ℚ) / (st.total_files : ℚ) * 100⟩)⟩

/-! ## Helper lemmas about line-ending normalization -/

/-- One step of `replace_lf_with_crlf`. -/
theorem replace_lf_cons (c : Nat) (t : List Nat) :
    replace_lf_with_crlf (c :: t)
      = (if c = 10 then [13, 10] else [c]) ++ replace_lf_with_crlf t := by
  simp [replace_lf_with_crlf]

/-- One step of `replace_cr_with_lf`. -/
theorem replace_cr_cons (c : Nat) (t : List Nat) :
    replace_cr_with_lf (c :: t)
      = (if c = 13 then 10 else c) :: replace_cr_with_lf t := by
  simp [replace_cr_with_lf]

/-- A CR LF pair at the head is collapsed by `replace_crlf_with_lf`. -/
theorem replace_crlf_crlf_cons (w : List Nat) :
    replace_crlf_with_lf (13 :: 10 :: w) = 10 :: replace_crlf_with_lf w := by
  simp [replace_crlf_with_lf]

/-- A head that is not CR is kept by `replace_crlf_with_lf`. -/
theorem replace_crlf_cons {c : Nat} (w : List Nat) (h : c ≠ 13) :
    replace_crlf_with_lf (c :: w) = c :: replace_crlf_with_lf w := by
  match w with
  | [] => rfl
  | b :: w' =>
    rw [replace_crlf_with_lf, if_neg]
    intro hc
    exact h hc.1

/-- The second pass of the Unix normalization leaves no CR. -/
theorem replace_cr_no_cr (text : List Nat) : 13 ∉ replace_cr_with_lf text := by
  intro hmem
  rw [replace_cr_with_lf, List.mem_map] at hmem
  obtain ⟨c, _, hc⟩ := hmem
  by_cases h : c = 13 <;> simp [h] at hc

/-- The Unix normalization leaves no CR in its output. -/
theorem unix_no_cr (text : List Nat) : 13 ∉ convert_to_unix_endings text :=
  replace_cr_no_cr _

/-- On CR-free text the first Unix pass is the identity. -/
theorem replace_crlf_of_no_cr : ∀ {text : List Nat}, 13 ∉ text →
    replace_crlf_with_lf text = text
  | [], _ => rfl
  | [_], _ => rfl
  | a :: b :: rest, h => by
    have ha : a ≠ 13 := fun e => h (e ▸ List.mem_cons_self a (b :: rest))
    rw [replace_crlf_cons (b :: rest) ha,
      replace_crlf_of_no_cr (fun hm => h (List.mem_cons_of_mem a hm))]

/-- On CR-free text the second Unix pass is the identity. -/
theorem replace_cr_of_no_cr : ∀ {text : List Nat}, 13 ∉ text →
    replace_cr_with_lf text = text
  | [], _ => rfl
  | c :: t, h => by
    have hc : c ≠ 13 := fun e => h (e ▸ List.mem_cons_self c t)
    rw [replace_cr_cons, if_neg hc,
      replace_cr_of_no_cr (fun hm => h (List.mem_cons_of_mem c hm))]

/-- On CR-free text the Unix normalization is the identity. -/
theorem unix_of_no_cr {text : List Nat} (h : 13 ∉ text) :
    convert_to_unix_endings text = text := by
  rw [convert_to_unix_endings, replace_crlf_of_no_cr h, replace_cr_of_no_cr h]

/-- The Unix normalization undoes the LF-to-CRLF expansion on CR-free
text. -/
theorem unix_of_expand : ∀ {u : List Nat}, 13 ∉ u →
    convert_to_unix_endings (replace_lf_with_crlf u) = u
  | [], _ => rfl
  | c :: t, h => by
    have hc : c ≠ 13 := fun e => h (e ▸ List.mem_cons_self c t)
    have ht : 13 ∉ t := fun hm => h (List.mem_cons_of_mem c hm)
    have ih := unix_of_expand ht
    rw [replace_lf_cons]
    by_cases h10 : c = 10
    · rw [if_pos h10, convert_to_unix_endings] at *
      rw [List.cons_append, List.cons_append, List.nil_append,
        replace_crlf_crlf_cons, replace_cr_cons, if_neg (by omega)]
      rw [ih, h10]
    · rw [if_neg h10, convert_to_unix_endings] at *
      rw [List.cons_append, List.nil_append, replace_crlf_cons _ hc,
        replace_cr_cons, if_neg hc, ih]

/-! ## C1 -/

/-- C1: `detect_bom` inspects only the leading bytes and tests the five
markers in the priority order UTF-8 (EF BB BF), UTF-16BE (FE FF),
UTF-32LE (FF FE 00 00), UTF-32BE (00 00 FE FF), UTF-16LE (FF FE),
returning the first match; the 2-byte input FF FE detects as UTF-16LE
(also through `detect_encoding`), and any input beginning FF FE 00 00
detects as UTF-32LE. -/
theorem c1_marker_scan_priority :
    (∀ rest, detect_bom (0xEF :: 0xBB :: 0xBF :: rest) = some ⟨"UTF-8", 3⟩)
    ∧ (∀ rest, detect_bom (0xFE :: 0xFF :: rest) = some ⟨"UTF-16BE", 2⟩)
    ∧ (∀ rest, detect_bom (0xFF :: 0xFE :: 0x00 :: 0x00 :: rest) = some ⟨"UTF-32LE", 4⟩)
    ∧ (∀ rest, detect_bom (0x00 :: 0x00 :: 0xFE :: 0xFF :: rest) = some ⟨"UTF-32BE", 4⟩)
    ∧ detect_bom [0xFF, 0xFE] = some ⟨"UTF-16LE", 2⟩
    ∧ detect_bom [] = none
    ∧ (∀ b, detect_bom [b] = none)
    ∧ (∀ chardet, detect_encoding chardet (some [0xFF, 0xFE])
        = ⟨"UTF-16LE", some "UTF-16LE"⟩)
    ∧ (∀ chardet rest,
        detect_encoding chardet (some (0xFF :: 0xFE :: 0x00 :: 0x00 :: rest))
          = ⟨"UTF-32LE", some "UTF-32LE"⟩) := by
  refine ⟨fun rest => by simp [detect_bom], fun rest => by simp [detect_bom],
    fun rest => by simp [detect_bom], fun rest => by simp [detect_bom],
    by decide, by decide, fun b => by simp [detect_bom],
    fun chardet => rfl, fun chardet rest => ?_⟩
  have hbom : detect_bom (0xFF :: 0xFE :: 0x00 :: 0x00 :: rest) = some ⟨"UTF-32LE", 4⟩ := by
    simp [detect_bom]
  simp [detect_encoding, hbom]

/-! ## C8 -/

/-- C8: `detect_encoding` is a total function (its embedding is a total
Lean function, as the source has no panic or error path): zero-length
content yields the label "empty file" with no marker, checked before the
marker scan and every other test, and unreadable input (a failed
`fs::read`) yields "binary/unreadable" with no marker. -/
theorem c8_detection_total :
    (∀ chardet input, ∃ r, detect_encoding chardet input = r)
    ∧ (∀ chardet, detect_encoding chardet (some []) = ⟨"empty file", none⟩)
    ∧ (∀ chardet, detect_encoding chardet none = ⟨"binary/unreadable", none⟩) :=
  ⟨fun _ input => ⟨_, rfl⟩, fun _ => rfl, fun _ => rfl⟩

/-! ## C3 -/

/-- C3: the line-ending transformation of `convert`: Keep leaves the text
unchanged, Unix is the two-pass CRLF-then-CR normalization, Windows fully
normalizes to LF and then expands LF to CRLF; on the text "a\r\nb\rc\n"
(97 13 10 98 13 99 10) Unix yields "a\nb\nc\n" and Windows yields
"a\r\nb\r\nc\r\n". -/
theorem c3_line_ending_policy :
    (∀ text, apply_line_ending .keep text = text)
    ∧ (∀ text, apply_line_ending .unix text
        = replace_cr_with_lf (replace_crlf_with_lf text))
    ∧ (∀ text, apply_line_ending .windows text
        = replace_lf_with_crlf (convert_to_unix_endings text))
    ∧ apply_line_ending .unix [97, 13, 10, 98, 13, 99, 10]
        = [97, 10, 98, 10, 99, 10]
    ∧ apply_line_ending .windows [97, 13, 10, 98, 13, 99, 10]
        = [97, 13, 10, 98, 13, 10, 99, 13, 10] :=
  ⟨fun _ => rfl, fun _ => rfl, fun _ => rfl, by decide, by decide⟩

/-! ## C6 -/

/-- C6: both line-ending normalizations are idempotent: applying the Unix
(resp. Windows) normalization twice yields the same result as applying it
once, for every text. -/
theorem c6_normalization_idempotent (text : List Nat) :
    convert_to_unix_endings (convert_to_unix_endings text)
      = convert_to_unix_endings text
    ∧ convert_to_windows_endings (convert_to_windows_endings text)
      = convert_to_windows_endings text := by
  constructor
  · exact unix_of_no_cr (unix_no_cr text)
  · show convert_to_windows_endings (replace_lf_with_crlf (convert_to_unix_endings text)) = _
    rw [convert_to_windows_endings, unix_of_expand (unix_no_cr text)]
    rfl

/-! ## Helper lemmas about `convert` and the batch driver -/

/-- The only error `get_encoding` produces is `UnsupportedEncoding` with
the offending name. -/
theorem get_encoding_error_shape (name : String) (e : ConversionError)
    (h : get_encoding name = .error e) : e = .unsupportedEncoding name := by
  unfold get_encoding at h
  split at h <;> simp_all

/-- Success shape of `convert`: both names resolve, the input decodes,
the normalized text encodes, and the output is the (conditional) BOM
prefix followed by the encoded bytes. -/
theorem convert_ok_iff (input : List Nat) (src : FileEncoding) (toEnc : String)
    (le : LineEnding) (out : List Nat) :
    convert input src toEnc le = .ok out ↔
    ∃ sc tc text output,
      get_encoding src.encoding = .ok sc ∧ get_encoding toEnc = .ok tc
      ∧ decode_with_bom_sniff sc input = some text
      ∧ codecEncode tc (apply_line_ending le text) = some output
      ∧ out = (if toEnc = "UTF-8-BOM" ∨ toEnc = "UTF-16LE" ∨ toEnc = "UTF-16BE" then
          get_bom toEnc else []) ++ output := by
  unfold convert
  cases hs : get_encoding src.encoding with
  | error e => simp [hs, Bind.bind, Except.bind]
  | ok sc =>
    cases ht : get_encoding toEnc with
    | error e => simp [hs, ht, Bind.bind, Except.bind]
    | ok tc =>
      cases hd : decode_with_bom_sniff sc input with
      | none => simp [hs, ht, hd, Bind.bind, Except.bind]
      | some text =>
        cases he : codecEncode tc (apply_line_ending le text) with
        | none => simp [hs, ht, hd, he, Bind.bind, Except.bind]
        | some output =>
          simp [hs, ht, hd, he, Bind.bind, Except.bind, eq_comm]

/-- A batch whose every outcome is an error performs no write. -/
theorem batch_writes_nil_of_errors : ∀ (outs : List FileOutcome),
    (∀ o ∈ outs, ∃ e, o.result = .error e) → batch_writes outs = []
  | [], _ => rfl
  | o :: rest, h => by
    obtain ⟨e, he⟩ := h o (List.mem_cons_self o rest)
    have ih := batch_writes_nil_of_errors rest
      (fun o' ho' => h o' (List.mem_cons_of_mem o ho'))
    simp only [batch_writes, List.filterMap_cons, he, Except.toOption] at *
    simpa using ih

/-! ## C2 -/

/-- Formalization of C2 as stated, in its batch part: with an unsupported
target encoding name, the failure occurs before any file is processed, so
the batch produces no per-file outcome at all. -/
def c2_claim_as_stated : Prop :=
  ∀ (files : List ScannedFile) (toEnc : String) (le : LineEnding)
    (root : List String),
    get_encoding toEnc = .error (.unsupportedEncoding toEnc) →
    convert_files files toEnc le root = []

/-- C2 counterexample: with the unsupported target "UTF-9" and two files,
the batch still processes both files (two per-file outcomes), so the
failure is not fatal-before-any-file as the claim states. -/
theorem c2_counterexample : ¬ c2_claim_as_stated := by
  intro h
  have h2 := h
    [⟨["d", "a.txt"], "a.txt", [0x61], ⟨"UTF-8", none⟩⟩,
     ⟨["d", "b.txt"], "b.txt", [0x62], ⟨"UTF-8", none⟩⟩]
    "UTF-9" .keep ["out"] rfl
  simp [convert_files] at h2

/-- C2 (amended): an unsupported source or target name makes each
individual `convert` call fail with `UnsupportedEncoding` — an
unsupported target makes every call fail naming the offending encoding,
and an unsupported source makes every call fail naming the source (the
source resolves first in `get_codecs`), even when the target is
supported; in a batch every affected file's conversion fails with that
error and nothing is written, but the check happens inside each file's
conversion, so the batch still iterates over all files rather than
failing fast. -/
theorem c2_unsupported_encoding (name : String)
    (h : get_encoding name = .error (.unsupportedEncoding name)) :
    (∀ input src le, ∃ nm,
      convert input src name le = .error (.unsupportedEncoding nm))
    ∧ (∀ input srcBom toEnc le,
        convert input ⟨name, srcBom⟩ toEnc le
          = .error (.unsupportedEncoding name))
    ∧ (∀ files le root,
        (convert_files files name le root).length = files.length
        ∧ (∀ o ∈ convert_files files name le root,
            ∃ nm, o.result = .error (.unsupportedEncoding nm))
        ∧ batch_writes (convert_files files name le root) = [])
    ∧ (∀ files toEnc le root, (∀ f ∈ files, f.enc.encoding = name) →
        (convert_files files toEnc le root).length = files.length
        ∧ (∀ o ∈ convert_files files toEnc le root,
            ∃ nm, o.result = .error (.unsupportedEncoding nm))
        ∧ batch_writes (convert_files files toEnc le root) = []) := by
  have singleTgt : ∀ (input : List Nat) (src : FileEncoding) (le : LineEnding),
      ∃ nm, convert input src name le = .error (.unsupportedEncoding nm) := by
    intro input src le
    cases hs : get_encoding src.encoding with
    | error e =>
      refine ⟨src.encoding, ?_⟩
      have he := get_encoding_error_shape src.encoding e hs
      unfold convert
      simp [hs, he, Bind.bind, Except.bind]
    | ok sc =>
      refine ⟨name, ?_⟩
      unfold convert
      simp [hs, h, Bind.bind, Except.bind]
  have singleSrc : ∀ (input : List Nat) (src : FileEncoding) (toEnc : String)
      (le : LineEnding), src.encoding = name →
      convert input src toEnc le = .error (.unsupportedEncoding name) := by
    intro input src toEnc le hsrc
    unfold convert
    rw [hsrc]
    simp [h, Bind.bind, Except.bind]
  refine ⟨singleTgt,
    fun input srcBom toEnc le => singleSrc input ⟨name, srcBom⟩ toEnc le rfl,
    fun files le root => ⟨by simp [convert_files], ?_, ?_⟩,
    fun files toEnc le root hall => ⟨by simp [convert_files], ?_, ?_⟩⟩
  · intro o ho
    simp only [convert_files, List.mem_map] at ho
    obtain ⟨f, _, rfl⟩ := ho
    exact singleTgt f.bytes f.enc le
  · apply batch_writes_nil_of_errors
    intro o ho
    simp only [convert_files, List.mem_map] at ho
    obtain ⟨f, _, rfl⟩ := ho
    obtain ⟨nm, hn⟩ := singleTgt f.bytes f.enc le
    exact ⟨.unsupportedEncoding nm, hn⟩
  · intro o ho
    simp only [convert_files, List.mem_map] at ho
    obtain ⟨f, hf, rfl⟩ := ho
    exact ⟨name, singleSrc f.bytes f.enc toEnc le (hall f hf)⟩
  · apply batch_writes_nil_of_errors
    intro o ho
    simp only [convert_files, List.mem_map] at ho
    obtain ⟨f, hf, rfl⟩ := ho
    exact ⟨.unsupportedEncoding name,
      singleSrc f.bytes f.enc toEnc le (hall f hf)⟩

/-- Witness for C2: the amended theorem applied to the concrete
unsupported name "UTF-9", covering both the unsupported-target and the
unsupported-source (supported target) cases. -/
theorem c2_witness :
    get_encoding "UTF-9" = .error (.unsupportedEncoding "UTF-9")
    ∧ ((∀ input src le, ∃ nm,
        convert input src "UTF-9" le = .error (.unsupportedEncoding nm))
      ∧ (∀ input srcBom toEnc le,
          convert input ⟨"UTF-9", srcBom⟩ toEnc le
            = .error (.unsupportedEncoding "UTF-9"))
      ∧ (∀ files le root,
          (convert_files files "UTF-9" le root).length = files.length
          ∧ (∀ o ∈ convert_files files "UTF-9" le root,
              ∃ nm, o.result = .error (.unsupportedEncoding nm))
          ∧ batch_writes (convert_files files "UTF-9" le root) = [])
      ∧ (∀ files toEnc le root, (∀ f ∈ files, f.enc.encoding = "UTF-9") →
          (convert_files files toEnc le root).length = files.length
          ∧ (∀ o ∈ convert_files files toEnc le root,
              ∃ nm, o.result = .error (.unsupportedEncoding nm))
          ∧ batch_writes (convert_files files toEnc le root) = []))
    ∧ convert [0x61] ⟨"UTF-9", none⟩ "UTF-8" .keep
        = .error (.unsupportedEncoding "UTF-9") :=
  ⟨rfl, c2_unsupported_encoding "UTF-9" rfl,
    (c2_unsupported_encoding "UTF-9" rfl).2.1 [0x61] none "UTF-8" .keep⟩

/-! ## C5 -/

/-- Formalization of C5 as stated: the destination path (output root
joined with the file's base name) is never equal to the original file's
path. -/
def c5_claim_as_stated : Prop :=
  ∀ (root p : List String) (n : String), base_name p = some n →
    output_path_for root n ≠ p

/-- C5 counterexample: a file named "a.txt" lying directly in the output
root "in" has its own path as destination, so conversion would write to
the original file. -/
theorem c5_counterexample : ¬ c5_claim_as_stated := fun h =>
  h ["in"] ["in", "a.txt"] "a.txt" rfl rfl

/-- C5 (amended): the destination is derived from the explicit output
root as `root ++ [name]`, and it coincides with the original file's path
exactly when the original lies directly in the output root under the same
base name — only in that case does conversion write to the original
path. -/
theorem c5_output_path_derivation (root p : List String) (n : String)
    (h : base_name p = some n) :
    output_path_for root n = root ++ [n]
    ∧ (output_path_for root n = p ↔ p = root ++ [n]) :=
  ⟨rfl, by rw [output_path_for]; exact eq_comm⟩

/-- Witness for C5: the amended theorem at a concrete file outside the
output root. -/
theorem c5_witness :
    base_name ["in", "a.txt"] = some "a.txt"
    ∧ (output_path_for ["out"] "a.txt" = ["out"] ++ ["a.txt"]
      ∧ (output_path_for ["out"] "a.txt" = ["in", "a.txt"]
          ↔ ["in", "a.txt"] = ["out"] ++ ["a.txt"])) :=
  ⟨rfl, c5_output_path_derivation ["out"] ["in", "a.txt"] "a.txt" rfl⟩

/-! ## C10 -/

/-- C10: each file's destination is the output root joined with its base
name only (never its relative path); consequently two files in different
subdirectories sharing the base name "x.txt" both write to the same
destination, and the later write overwrites the earlier one (the final
contents at the shared destination are the second file's conversion). -/
theorem c10_base_name_collision :
    (∀ files target le root,
      (convert_files files target le root).map (fun o => o.dest)
        = files.map (fun f => root ++ [f.name]))
    ∧ ((batch_writes (convert_files
          [⟨["in", "d1", "x.txt"], "x.txt", [0x61], ⟨"UTF-8", none⟩⟩,
           ⟨["in", "d2", "x.txt"], "x.txt", [0x62], ⟨"UTF-8", none⟩⟩]
          "UTF-8" .keep ["out"])).map (fun w => w.1)
        = [["out", "x.txt"], ["out", "x.txt"]])
    ∧ written_contents (batch_writes (convert_files
          [⟨["in", "d1", "x.txt"], "x.txt", [0x61], ⟨"UTF-8", none⟩⟩,
           ⟨["in", "d2", "x.txt"], "x.txt", [0x62], ⟨"UTF-8", none⟩⟩]
          "UTF-8" .keep ["out"])) ["out", "x.txt"]
        = some [0x62] := by
  refine ⟨fun files target le root => ?_, rfl, rfl⟩
  simp [convert_files, output_path_for]

/-! ## UTF-8 round-trip lemmas -/

/-- Unfolding of `utf8encode` on a cons. -/
theorem utf8encode_cons (c : Nat) (t : List Nat) :
    utf8encode (c :: t) = utf8encodeChar c ++ utf8encode t := by
  simp [utf8encode]

/-- An ASCII scalar encodes as its own single byte. -/
theorem utf8encodeChar_ascii {b : Nat} (hb : b < 128) : utf8encodeChar b = [b] := by
  rw [utf8encodeChar, if_pos hb]

/-- The scalar decoded from a well-formed 2-byte sequence re-encodes to
those bytes. -/
theorem utf8encodeChar_two {b b2 : Nat} (h1 : 194 ≤ b) (h2 : b ≤ 223)
    (h3 : 128 ≤ b2) (h4 : b2 ≤ 191) :
    utf8encodeChar ((b - 0xC0) * 64 + (b2 - 0x80)) = [b, b2] := by
  rw [utf8encodeChar, if_neg (by omega), if_pos (by omega)]
  simp only [List.cons.injEq, and_true]
  constructor <;> omega

/-- The scalar decoded from a well-formed 3-byte sequence re-encodes to
those bytes. -/
theorem utf8encodeChar_three {b b2 b3 : Nat} (hr : 224 ≤ b ∧ b ≤ 239)
    (hcond : (if b = 224 then 160 ≤ b2 ∧ b2 ≤ 191
        else if b = 237 then 128 ≤ b2 ∧ b2 ≤ 159 else 128 ≤ b2 ∧ b2 ≤ 191)
      ∧ 128 ≤ b3 ∧ b3 ≤ 191) :
    utf8encodeChar ((b - 0xE0) * 4096 + (b2 - 0x80) * 64 + (b3 - 0x80))
      = [b, b2, b3] := by
  obtain ⟨hc2, hc3⟩ := hcond
  split at hc2
  case isTrue h =>
    rw [utf8encodeChar, if_neg (by omega), if_neg (by omega), if_pos (by omega)]
    simp only [List.cons.injEq, and_true]
    refine ⟨by omega, by omega, by omega⟩
  case isFalse h =>
    split at hc2 <;>
    · rw [utf8encodeChar, if_neg (by omega), if_neg (by omega), if_pos (by omega)]
      simp only [List.cons.injEq, and_true]
      refine ⟨by omega, by omega, by omega⟩

/-- The scalar decoded from a well-formed 4-byte sequence re-encodes to
those bytes. -/
theorem utf8encodeChar_four {b b2 b3 b4 : Nat} (hr : 240 ≤ b ∧ b ≤ 244)
    (hcond : (if b = 240 then 144 ≤ b2 ∧ b2 ≤ 191
        else if b = 244 then 128 ≤ b2 ∧ b2 ≤ 143 else 128 ≤ b2 ∧ b2 ≤ 191)
      ∧ (128 ≤ b3 ∧ b3 ≤ 191) ∧ (128 ≤ b4 ∧ b4 ≤ 191)) :
    utf8encodeChar ((b - 0xF0) * 262144 + (b2 - 0x80) * 4096
        + (b3 - 0x80) * 64 + (b4 - 0x80))
      = [b, b2, b3, b4] := by
  obtain ⟨hc2, hc3, hc4⟩ := hcond
  split at hc2
  case isTrue h =>
    rw [utf8encodeChar, if_neg (by omega), if_neg (by omega), if_neg (by omega)]
    simp only [List.cons.injEq, and_true]
    refine ⟨by omega, by omega, by omega, by omega⟩
  case isFalse h =>
    split at hc2 <;>
    · rw [utf8encodeChar, if_neg (by omega), if_neg (by omega), if_neg (by omega)]
      simp only [List.cons.injEq, and_true]
      refine ⟨by omega, by omega, by omega, by omega⟩

/-- Decoding success determines the bytes: re-encoding the decoded text
yields exactly the input bytes. -/
theorem utf8decode_encode : ∀ (bs cps : List Nat),
    utf8decode bs = some cps → utf8encode cps = bs := by
  intro bs
  induction bs using utf8decode.induct with
  | case1 =>
    intro cps h
    rw [utf8decode] at h
    cases h
    rfl
  | case2 b rest hb ih =>
    intro cps h
    rw [utf8decode.eq_def] at h
    simp only [] at h
    rw [if_pos hb] at h
    obtain ⟨t, ht, rfl⟩ := Option.map_eq_some'.mp h
    simp [utf8encode_cons, utf8encodeChar_ascii hb, ih t ht]
  | case3 b hb h2 b2 r hc ih =>
    intro cps h
    rw [utf8decode.eq_def] at h
    simp only [] at h
    rw [if_neg hb, if_pos h2, if_pos hc] at h
    obtain ⟨t, ht, rfl⟩ := Option.map_eq_some'.mp h
    simp [utf8encode_cons, utf8encodeChar_two h2.1 h2.2 hc.1 hc.2, ih t ht]
  | case4 b hb h2 b2 r hc =>
    intro cps h
    rw [utf8decode.eq_def] at h
    simp only [] at h
    rw [if_neg hb, if_pos h2, if_neg hc] at h
    exact Option.noConfusion h
  | case5 b hb h2 =>
    intro cps h
    rw [utf8decode.eq_def] at h
    simp only [] at h
    rw [if_neg hb, if_pos h2] at h
    exact Option.noConfusion h
  | case6 b hb h2 h3 b2 b3 r hc ih =>
    intro cps h
    rw [utf8decode.eq_def] at h
    simp only [] at h
    rw [if_neg hb, if_neg h2, if_pos h3, if_pos hc] at h
    obtain ⟨t, ht, rfl⟩ := Option.map_eq_some'.mp h
    simp [utf8encode_cons, utf8encodeChar_three h3 hc, ih t ht]
  | case7 b hb h2 h3 b2 b3 r hc =>
    intro cps h
    rw [utf8decode.eq_def] at h
    simp only [] at h
    rw [if_neg hb, if_neg h2, if_pos h3, if_neg hc] at h
    exact Option.noConfusion h
  | case8 b hb h2 h3 b2 =>
    intro cps h
    rw [utf8decode.eq_def] at h
    simp only [] at h
    rw [if_neg hb, if_neg h2, if_pos h3] at h
    exact Option.noConfusion h
  | case9 b hb h2 h3 =>
    intro cps h
    rw [utf8decode.eq_def] at h
    simp only [] at h
    rw [if_neg hb, if_neg h2, if_pos h3] at h
    exact Option.noConfusion h
  | case10 b hb h2 h3 h4 b2 b3 b4 r hc ih =>
    intro cps h
    rw [utf8decode.eq_def] at h
    simp only [] at h
    rw [if_neg hb, if_neg h2, if_neg h3, if_pos h4, if_pos hc] at h
    obtain ⟨t, ht, rfl⟩ := Option.map_eq_some'.mp h
    simp [utf8encode_cons, utf8encodeChar_four h4 hc, ih t ht]
  | case11 b hb h2 h3 h4 b2 b3 b4 r hc =>
    intro cps h
    rw [utf8decode.eq_def] at h
    simp only [] at h
    rw [if_neg hb, if_neg h2, if_neg h3, if_pos h4, if_neg hc] at h
    exact Option.noConfusion h
  | case12 b hb h2 h3 h4 b2 b3 =>
    intro cps h
    rw [utf8decode.eq_def] at h
    simp only [] at h
    rw [if_neg hb, if_neg h2, if_neg h3, if_pos h4] at h
    exact Option.noConfusion h
  | case13 b hb h2 h3 h4 b2 =>
    intro cps h
    rw [utf8decode.eq_def] at h
    simp only [] at h
    rw [if_neg hb, if_neg h2, if_neg h3, if_pos h4] at h
    exact Option.noConfusion h
  | case14 b hb h2 h3 h4 =>
    intro cps h
    rw [utf8decode.eq_def] at h
    simp only [] at h
    rw [if_neg hb, if_neg h2, if_neg h3, if_pos h4] at h
    exact Option.noConfusion h
  | case15 b rest hb h2 h3 h4 =>
    intro cps h
    rw [utf8decode.eq_def] at h
    simp only [] at h
    rw [if_neg hb, if_neg h2, if_neg h3, if_neg h4] at h
    exact Option.noConfusion h

/-- A byte sequence that decodes as UTF-8 starts with a byte below 0xF5. -/
theorem utf8decode_head_bound {b : Nat} {rest cps : List Nat}
    (h : utf8decode (b :: rest) = some cps) : b < 0xF5 := by
  by_contra hb
  push_neg at hb
  rw [utf8decode.eq_def] at h
  simp only [] at h
  rw [if_neg (by omega), if_neg (by omega), if_neg (by omega), if_neg (by omega)] at h
  exact Option.noConfusion h

/-- Decoding steps over a leading UTF-8 BOM as the scalar U+FEFF. -/
theorem utf8decode_bom_cons (rest : List Nat) :
    utf8decode (0xEF :: 0xBB :: 0xBF :: rest)
      = (utf8decode rest).map (fun t => 0xFEFF :: t) := by
  rw [utf8decode.eq_def]
  norm_num

/-- A list whose first three elements are the UTF-8 BOM bytes splits off
that prefix. -/
theorem take3_bom_shape {bs : List Nat} (h : bs.take 3 = [0xEF, 0xBB, 0xBF]) :
    ∃ r, bs = 0xEF :: 0xBB :: 0xBF :: r := by
  match bs with
  | [] => simp at h
  | [a] => simp at h
  | [a, b] => simp at h
  | a :: b :: c :: r =>
    simp [List.take] at h
    obtain ⟨rfl, rfl, rfl⟩ := h
    exact ⟨r, rfl⟩

/-- On valid UTF-8 input with no leading UTF-8 BOM, the BOM sniffing of
`decode` is inert: no UTF-16 BOM can occur because 0xFE/0xFF bytes never
appear in valid UTF-8. -/
theorem decode_sniff_of_utf8 {bs cps : List Nat} (h : utf8decode bs = some cps)
    (hbom : bs.take 3 ≠ [0xEF, 0xBB, 0xBF]) :
    decode_with_bom_sniff .utf8 bs = some cps := by
  have h1 : bs.take 2 ≠ [0xFE, 0xFF] := by
    intro ht
    cases bs with
    | nil => simp at ht
    | cons b rest =>
      have hb := utf8decode_head_bound h
      simp [List.take] at ht
      omega
  have h2 : bs.take 2 ≠ [0xFF, 0xFE] := by
    intro ht
    cases bs with
    | nil => simp at ht
    | cons b rest =>
      have hb := utf8decode_head_bound h
      simp [List.take] at ht
      omega
  rw [decode_with_bom_sniff, if_neg hbom, if_neg h1, if_neg h2]
  exact h

/-! ## C7 -/

/-- C7: for every byte sequence that is valid UTF-8 (the decoder
succeeds, as `String::from_utf8` would), converting with source UTF-8,
target UTF-8 and the Keep policy succeeds and returns the input bytes
unchanged — except that a leading UTF-8 source marker is stripped by the
decoder's BOM sniffing, and no marker is added back for target UTF-8. -/
theorem c7_utf8_round_trip (bs : List Nat) (srcBom : Option String)
    (h : ∃ cps, utf8decode bs = some cps) :
    ∃ out, convert bs ⟨"UTF-8", srcBom⟩ "UTF-8" .keep = .ok out
      ∧ (out = bs ∨ bs = [0xEF, 0xBB, 0xBF] ++ out) := by
  obtain ⟨cps, hdec⟩ := h
  by_cases hbom : bs.take 3 = [0xEF, 0xBB, 0xBF]
  · obtain ⟨r, rfl⟩ := take3_bom_shape hbom
    rw [utf8decode_bom_cons] at hdec
    obtain ⟨t, ht, rfl⟩ := Option.map_eq_some'.mp hdec
    refine ⟨utf8encode t, ?_, Or.inr ?_⟩
    · rw [convert_ok_iff]
      exact ⟨.utf8, .utf8, t, utf8encode t, rfl, rfl, ht, rfl, rfl⟩
    · rw [utf8decode_encode r t ht]
      rfl
  · refine ⟨bs, ?_, Or.inl rfl⟩
    rw [convert_ok_iff]
    refine ⟨.utf8, .utf8, cps, utf8encode cps, rfl, rfl,
      decode_sniff_of_utf8 hdec hbom, rfl, ?_⟩
    rw [utf8decode_encode bs cps hdec]
    rfl

/-- Witness for C7: the one-byte ASCII file "a" round-trips unchanged. -/
theorem c7_witness :
    (∃ cps, utf8decode [0x61] = some cps)
    ∧ (∃ out, convert [0x61] ⟨"UTF-8", none⟩ "UTF-8" .keep = .ok out
        ∧ (out = [0x61] ∨ [0x61] = [0xEF, 0xBB, 0xBF] ++ out)) :=
  ⟨⟨[0x61], rfl⟩, c7_utf8_round_trip [0x61] none ⟨[0x61], rfl⟩⟩

/-! ## C4 -/

/-- Modelled from the spec's words for C4: the exact marker bytes the
spec says are prepended for each target name — EF BB BF for the
UTF-8-with-marker variant, FF FE for UTF-16LE, FE FF for UTF-16BE,
nothing for any other target. -/
def spec_marker_bytes (toEnc : String) : List Nat :=
  if toEnc = "UTF-8-BOM" then [0xEF, 0xBB, 0xBF]
  else if toEnc = "UTF-16LE" then [0xFF, 0xFE]
  else if toEnc = "UTF-16BE" then [0xFE, 0xFF]
  else []

/-- Formalization of C4 as stated: for every successful conversion the
output begins with the marker bytes if and only if the target is the
corresponding marker variant. -/
def c4_claim_as_stated : Prop :=
  ∀ (input : List Nat) (src : FileEncoding) (toEnc : String)
    (le : LineEnding) (out : List Nat),
    convert input src toEnc le = .ok out →
    ((out.take 3 = [0xEF, 0xBB, 0xBF] ↔ toEnc = "UTF-8-BOM")
     ∧ (out.take 2 = [0xFF, 0xFE] ↔ toEnc = "UTF-16LE")
     ∧ (out.take 2 = [0xFE, 0xFF] ↔ toEnc = "UTF-16BE"))

/-- C4 counterexample: the UTF-8 input EF BB BF EF BB BF (a BOM followed
by an encoded U+FEFF) converts to target "UTF-8" as EF BB BF — the
output begins with the UTF-8 marker bytes although the target is not the
marker variant, refuting the only-if direction. -/
theorem c4_counterexample : ¬ c4_claim_as_stated := by
  intro h
  have h2 := (h [0xEF, 0xBB, 0xBF, 0xEF, 0xBB, 0xBF] ⟨"UTF-8", none⟩ "UTF-8"
      .keep [0xEF, 0xBB, 0xBF] rfl).1
  have h3 : ("UTF-8" : String) = "UTF-8-BOM" := h2.mp rfl
  exact absurd h3 (by decide)

/-- C4 (amended): for every successful conversion the output is the
marker bytes of the target followed by the encoded content, where the
marker bytes are EF BB BF / FF FE / FE FF exactly when the target name
is the literal string "UTF-8-BOM" / "UTF-16LE" / "UTF-16BE" and empty
for every other target (no marker is prepended even if the source had
one); so the output begins with the marker when the target is one of the
three marker variants, but for other targets the output may still happen
to begin with marker bytes when the encoded content itself does (e.g. a
decoded U+FEFF re-encoded to UTF-8). -/
theorem c4_marker_prepend (input : List Nat) (src : FileEncoding)
    (toEnc : String) (le : LineEnding) (out : List Nat)
    (h : convert input src toEnc le = .ok out) :
    (∃ body, out = spec_marker_bytes toEnc ++ body)
    ∧ (toEnc = "UTF-8-BOM" → out.take 3 = [0xEF, 0xBB, 0xBF])
    ∧ (toEnc = "UTF-16LE" → out.take 2 = [0xFF, 0xFE])
    ∧ (toEnc = "UTF-16BE" → out.take 2 = [0xFE, 0xFF]) := by
  rw [convert_ok_iff] at h
  obtain ⟨sc, tc, text, output, _, _, _, _, rfl⟩ := h
  have hpre : (if toEnc = "UTF-8-BOM" ∨ toEnc = "UTF-16LE" ∨ toEnc = "UTF-16BE"
      then get_bom toEnc else []) = spec_marker_bytes toEnc := by
    by_cases h1 : toEnc = "UTF-8-BOM"
    · subst h1; rfl
    · by_cases h2 : toEnc = "UTF-16LE"
      · subst h2; rfl
      · by_cases h3 : toEnc = "UTF-16BE"
        · subst h3; rfl
        · rw [if_neg (by tauto), spec_marker_bytes,
            if_neg h1, if_neg h2, if_neg h3]
  rw [hpre]
  refine ⟨⟨output, rfl⟩, ?_, ?_, ?_⟩ <;> intro he <;> subst he <;>
    simp [spec_marker_bytes]

/-- Witness for C4: converting "a" to "UTF-8-BOM" succeeds with the
marker prepended, and the amended theorem applies to it. -/
theorem c4_witness :
    convert [0x61] ⟨"UTF-8", none⟩ "UTF-8-BOM" .keep
      = .ok [0xEF, 0xBB, 0xBF, 0x61]
    ∧ ((∃ body, [0xEF, 0xBB, 0xBF, 0x61] = spec_marker_bytes "UTF-8-BOM" ++ body)
      ∧ ("UTF-8-BOM" = "UTF-8-BOM" → [0xEF, 0xBB, 0xBF, 0x61].take 3 = [0xEF, 0xBB, 0xBF])
      ∧ ("UTF-8-BOM" = "UTF-16LE" → [0xEF, 0xBB, 0xBF, 0x61].take 2 = [0xFF, 0xFE])
      ∧ ("UTF-8-BOM" = "UTF-16BE" → [0xEF, 0xBB, 0xBF, 0x61].take 2 = [0xFE, 0xFF])) :=
  ⟨rfl, c4_marker_prepend [0x61] ⟨"UTF-8", none⟩ "UTF-8-BOM" .keep
    [0xEF, 0xBB, 0xBF, 0x61] rfl⟩

/-! ## C9 helper lemmas -/

/-- Bumping one key's count raises the total count by one. -/
theorem bumpCount_sum (m : List (FileEncoding × Nat)) (k : FileEncoding) :
    ((bumpCount m k).map (fun e => e.2)).sum
      = (m.map (fun e => e.2)).sum + 1 := by
  induction m with
  | nil => simp [bumpCount]
  | cons e rest ih =>
    obtain ⟨k', c⟩ := e
    by_cases h : k' = k
    · simp [bumpCount, h]
      omega
    · simp [bumpCount, h, ih]
      omega

/-- Folding `add_file` over a list of observations adds one to the file
total and to the count total per observation. -/
theorem foldl_add_file_invariant :
    ∀ (obs : List (List String × String × FileEncoding)) (init : Statistics),
      ((obs.foldl (fun st o => st.add_file o.1 o.2.1 o.2.2) init).total_files
        = init.total_files + obs.length)
      ∧ (((obs.foldl (fun st o => st.add_file o.1 o.2.1 o.2.2)
            init).encoding_counts.map (fun e => e.2)).sum
        = (init.encoding_counts.map (fun e => e.2)).sum + obs.length) := by
  intro obs
  induction obs with
  | nil => intro init; simp
  | cons o rest ih =>
    intro init
    have h2 := ih (init.add_file o.1 o.2.1 o.2.2)
    simp only [List.foldl_cons]
    refine ⟨?_, ?_⟩
    · rw [h2.1]
      simp [Statistics.add_file]
      omega
    · rw [h2.2]
      simp [Statistics.add_file, bumpCount_sum]
      omega

/-- The report's counts sum to the aggregate count total (sorting is a
permutation). -/
theorem generate_report_counts_sum (st : Statistics) :
    ((st.generate_report.encoding_stats).map (fun s => s.count)).sum
      = (st.encoding_counts.map (fun e => e.2)).sum := by
  simp only [Statistics.generate_report, List.map_map]
  exact ((List.mergeSort_perm st.encoding_counts
    (fun a b => decide (b.2 ≤ a.2))).map (fun e => e.2)).sum_eq

/-- The report's frequency table is sorted by descending count. -/
theorem generate_report_sorted (st : Statistics) :
    List.Pairwise (fun s1 s2 => s2.count ≤ s1.count)
      st.generate_report.encoding_stats := by
  simp only [Statistics.generate_report]
  have hsorted := @List.sorted_mergeSort _
    (fun (a b : FileEncoding × Nat) => decide (b.2 ≤ a.2))
    (by intro a b c h1 h2; simp at *; omega)
    (by intro a b; simp; omega)
    st.encoding_counts
  exact List.Pairwise.map _ (fun a b hab => by simpa using hab) hsorted

/-- Each report entry's percentage is count / total × 100. -/
theorem generate_report_percentage (st : Statistics) :
    ∀ s ∈ st.generate_report.encoding_stats,
      s.percentage = 100 * (s.count : ℚ) / (st.total_files : ℚ) := by
  intro s hs
  simp only [Statistics.generate_report, List.mem_map] at hs
  obtain ⟨e, _, rfl⟩ := hs
  show (e.2 : ℚ) / (st.total_files : ℚ) * 100
    = 100 * (e.2 : ℚ) / (st.total_files : ℚ)
  ring

/-! ## C9 -/

/-- C9: after any nonempty sequence of `add_file` calls, the generated
report has `totalFiles` equal to the number N of calls, its frequency
table's counts sum to N, the table is sorted by descending count, and
each entry's percentage equals 100·count/N (exactly, in the
rational-number model of the `f64` arithmetic). -/
theorem c9_statistics_report (obs : List (List String × String × FileEncoding))
    (h : obs ≠ []) :
    let st := obs.foldl (fun st o => st.add_file o.1 o.2.1 o.2.2) Statistics.new
    let rep := st.generate_report
    rep.total_files = obs.length
    ∧ (rep.encoding_stats.map (fun s => s.count)).sum = obs.length
    ∧ List.Pairwise (fun s1 s2 => s2.count ≤ s1.count) rep.encoding_stats
    ∧ ∀ s ∈ rep.encoding_stats,
        s.percentage = 100 * (s.count : ℚ) / (obs.length : ℚ) := by
  intro st rep
  have hinv := foldl_add_file_invariant obs Statistics.new
  have htot : st.total_files = obs.length := by
    rw [hinv.1]
    simp [Statistics.new]
  have hreptot : rep.total_files = st.total_files := rfl
  refine ⟨by rw [hreptot, htot], ?_, generate_report_sorted st, ?_⟩
  · rw [generate_report_counts_sum st, hinv.2]
    simp [Statistics.new]
  · intro s hs
    have := generate_report_percentage st s hs
    rwa [htot] at this

/-- Witness for C9: a single-file observation sequence. -/
theorem c9_witness :
    ([(["in", "a.txt"], "a.txt", (⟨"ASCII", none⟩ : FileEncoding))] : List _) ≠ []
    ∧ (let st := [((["in", "a.txt"] : List String), "a.txt",
          (⟨"ASCII", none⟩ : FileEncoding))].foldl
        (fun st o => st.add_file o.1 o.2.1 o.2.2) Statistics.new
       let rep := st.generate_report
       rep.total_files = 1
       ∧ (rep.encoding_stats.map (fun s => s.count)).sum = 1
       ∧ List.Pairwise (fun s1 s2 => s2.count ≤ s1.count) rep.encoding_stats
       ∧ ∀ s ∈ rep.encoding_stats,
           s.percentage = 100 * (s.count : ℚ) / ((1 : Nat) : ℚ)) :=
  ⟨by simp, c9_statistics_report
    [(["in", "a.txt"], "a.txt", (⟨"ASCII", none⟩ : FileEncoding))] (by simp)⟩

end ConvertRust
